import Mathlib

/-!
Verification of FastaAligner.py (pairwise alignment scorer for pre-aligned
FASTA files).

The development shallowly embeds the two core pieces of the program:

* the line-oriented FASTA importer (function fasta_importer, and the
  module-level line loop it contains), modelled on a list of input lines,
  where each line is a List Char without its trailing newline; the value
  returned by Python readline at end of file is the empty string, which the
  embedding reproduces by feeding an empty line when the list is exhausted;
* the scoring-parameter importer (function parameter_importer), including
  its faithful treatment of the two Python locals (value, equals_sign_index)
  that survive across loop iterations and can be unbound;
* the module-level pairwise scoring loop: per-column classification,
  counters, score accumulation, and the denominator computation whose
  division can raise ZeroDivisionError.

Python exceptions are modelled with Except; Python dict assignment (insert
keeping insertion order, overwrite in place) is modelled by dictInsert.
Numeric scores are modelled as rationals.  The percentage values themselves
(identity_pct, gaps_pct) are float round-to-1-decimal presentation values
used only inside the formatted report string; the embedding keeps the raw
counts, the denominator and the score, and models the division by zero that
computing the percentages performs when the denominator is 0.
-/

namespace FastaAligner

/-- A line of text, without its trailing newline. -/
abbrev Line := List Char

/-- Whitespace characters removed by Python str.strip(). -/
def isPySpace (c : Char) : Bool :=
  c = ' ' || c = '\t' || c = '\n' || c = '\x0d' || c = '\x0b' || c = '\x0c'

/-- Python str.strip(): remove leading and trailing whitespace. -/
def pyStrip (l : Line) : Line :=
  ((l.dropWhile isPySpace).reverse.dropWhile isPySpace).reverse

/-- Python line.startswith of a single character, here the FASTA header marker. -/
def startswithGT (l : Line) : Bool :=
  match l with
  | [] => false
  | c :: _ => c = '>'

/-- The permitted characters (valid_chars in fasta_importer). -/
def validChars : List Char := ['A', 'C', 'G', 'T', '-', 'N']

/-- Sequence-line normalization in fasta_importer: the line is uppercased
(line_upper = line.upper()), and every character not in valid_chars is
replaced by N.  The source only runs the replacement loop when the count
check detects an invalid character, but running it unconditionally is the
identity in the other case, so the net effect is this map. -/
def normalizeSeqLine (l : Line) : Line :=
  (l.map Char.toUpper).map (fun c => if c ∈ validChars then c else 'N')

/- ===== Pairwise column classification (module-level scoring loop) ===== -/

/-- Cardinality of the Python set intersection of two small character sets
given as lists: the source computes {a, b} and Python set semantics
deduplicate, so the embedding deduplicates before intersecting. -/
def interCard (s t : List Char) : Nat :=
  ((s.dedup).filter (fun c => c ∈ t)).length

/-- The six mutually exclusive effects a column can have in the scoring
loop of section 4.2 of FastaAligner.py.  Exactly one applies per column. -/
inductive ColClass where
  | disregardN : ColClass
  | identity : ColClass
  | matchedGap : ColClass
  | transitionCol : ColClass
  | gapCol : ColClass
  | transversionCol : ColClass
deriving DecidableEq, Repr

/-- Column classification, mirroring the if/elif/else chain of the scoring
loop: N-membership first, then exact match (split on whether the matched
symbol is a gap), then the set-intersection transition test, then the gap
test, else transversion. -/
def classify (a b : Char) : ColClass :=
  if a = 'N' ∨ b = 'N' then ColClass.disregardN
  else if a = b then
    if ¬ (a = '-') then ColClass.identity else ColClass.matchedGap
  else if interCard [a, b] ['A', 'G'] = 2 ∨ interCard [a, b] ['C', 'T'] = 2 then
    ColClass.transitionCol
  else if a = '-' ∨ b = '-' then ColClass.gapCol
  else ColClass.transversionCol

/-- Column classification as the specification states it, a priority list:
N-check; identity (equal, neither a gap); matched gap (equal, gap);
transition (unequal and the unordered pair is {A,G} or {C,T}); unmatched
gap; otherwise transversion. -/
def specClassify (a b : Char) : ColClass :=
  if a = 'N' ∨ b = 'N' then ColClass.disregardN
  else if a = b ∧ ¬ (a = '-') ∧ ¬ (b = '-') then ColClass.identity
  else if a = b ∧ a = '-' then ColClass.matchedGap
  else if (a = 'A' ∧ b = 'G') ∨ (a = 'G' ∧ b = 'A')
          ∨ (a = 'C' ∧ b = 'T') ∨ (a = 'T' ∧ b = 'C') then
    ColClass.transitionCol
  else if a = '-' ∨ b = '-' then ColClass.gapCol
  else ColClass.transversionCol

/-- The four scoring weights (parameters_dict). -/
structure ScoringParams where
  match_score : ℚ
  transition : ℚ
  transversion : ℚ
  gap_penalty : ℚ
deriving DecidableEq, Repr

/-- The default weights assigned at the top of parameter_importer. -/
def defaultParams : ScoringParams :=
  { match_score := 1, transition := -1, transversion := -2, gap_penalty := -1 }

/-- Mutable state of the scoring loop: identity, gaps, score,
disregarded_positions. -/
structure Counts where
  identity : Nat
  gaps : Nat
  disregarded : Nat
  score : ℚ
deriving DecidableEq, Repr

/-- The counters as initialized before the column loop. -/
def initCounts : Counts :=
  { identity := 0, gaps := 0, disregarded := 0, score := 0 }

/-- Effect of one classified column on the counters, exactly the updates
performed in the corresponding branch of the scoring loop. -/
def applyClass (p : ScoringParams) (st : Counts) (k : ColClass) : Counts :=
  match k with
  | ColClass.disregardN => { st with disregarded := st.disregarded + 1 }
  | ColClass.identity =>
      { st with score := st.score + p.match_score, identity := st.identity + 1 }
  | ColClass.matchedGap => { st with disregarded := st.disregarded + 1 }
  | ColClass.transitionCol => { st with score := st.score + p.transition }
  | ColClass.gapCol =>
      { st with score := st.score + p.gap_penalty, gaps := st.gaps + 1 }
  | ColClass.transversionCol => { st with score := st.score + p.transversion }

/-- The column loop: for a, b in zip(seq_a, seq_b), applied to the already
zipped column list. -/
def scoreLoop (p : ScoringParams) : Counts → List (Char × Char) → Counts
  | st, [] => st
  | st, (a, b) :: rest => scoreLoop p (applyClass p st (classify a b)) rest

/-- Errors the module-level scoring loop can raise: the explicit unequal
length ValueError, and Python ZeroDivisionError from the percentage
computation when denominator is 0. -/
inductive RunError where
  | lengthMismatch : RunError
  | zeroDivision : RunError
deriving DecidableEq, Repr

/-- A pair summary as accumulated into score_summary: the raw counters,
the denominator, and the score (identifiers are attached by scoreAll). -/
structure Summary where
  identity : Nat
  gaps : Nat
  disregarded : Nat
  denominator : Int
  score : ℚ
deriving DecidableEq, Repr

/-- Scoring of one pair of sequences, mirroring the body of the i < j
branch: the explicit length guard, the column loop, the denominator
alignment_len - disregarded_positions, and the division by denominator
performed by the percentage lines (which raises ZeroDivisionError when the
denominator is 0; the rounded float percentages themselves are presentation
only and are not part of the summary record). -/
def scorePair (p : ScoringParams) (seq_a seq_b : Line) : Except RunError Summary :=
  if seq_a.length ≠ seq_b.length then Except.error RunError.lengthMismatch
  else
    let c := scoreLoop p initCounts (seq_a.zip seq_b)
    let denominator : Int := (seq_a.length : Int) - (c.disregarded : Int)
    if denominator = 0 then Except.error RunError.zeroDivision
    else Except.ok
      { identity := c.identity, gaps := c.gaps, disregarded := c.disregarded,
        denominator := denominator, score := c.score }

/-- The i < j pair enumeration of the nested loops over fasta_dict keys:
outer index i in insertion order, inner j ranging over later entries. -/
def pairsOf {α : Type} : List α → List (α × α)
  | [] => []
  | x :: xs => (xs.map (fun y => (x, y))) ++ pairsOf xs

/-- The whole scoring run over the store, aborting at the first raised
exception exactly as the Python loop would. -/
def scoreAllGo (p : ScoringParams) :
    List ((Line × Line) × (Line × Line)) → Except RunError (List (Line × Line × Summary))
  | [] => Except.ok []
  | pr :: rest => do
      let s ← scorePair p pr.1.2 pr.2.2
      let tail ← scoreAllGo p rest
      Except.ok ((pr.1.1, pr.2.1, s) :: tail)

/-- score_all: one summary per unordered pair of store entries, in the
nested-loop order; any exception aborts the run before output is written. -/
def score_all (p : ScoringParams) (store : List (Line × Line)) :
    Except RunError (List (Line × Line × Summary)) :=
  scoreAllGo p (pairsOf store)

instance {ε α : Type} [DecidableEq ε] [DecidableEq α] : DecidableEq (Except ε α) :=
  fun x y =>
    match x, y with
    | Except.ok a, Except.ok b =>
        if h : a = b then Decidable.isTrue (by rw [h])
        else Decidable.isFalse (fun hc => h (by injection hc))
    | Except.error a, Except.error b =>
        if h : a = b then Decidable.isTrue (by rw [h])
        else Decidable.isFalse (fun hc => h (by injection hc))
    | Except.ok _, Except.error _ => Decidable.isFalse (fun hc => by injection hc)
    | Except.error _, Except.ok _ => Decidable.isFalse (fun hc => by injection hc)

/- ===== FASTA importer (fasta_importer) ===== -/

/-- Fatal errors raised by fasta_importer's line pass and its post-pass
validation (the path-existence and file-extension ValueErrors concern the
external file system and are outside this embedding). -/
inductive FastaError where
  | malformedFasta : FastaError
  | insufficientSequences : FastaError
  | unequalSequenceLength : FastaError
deriving DecidableEq, Repr

/-- Python dict assignment d[k] = v on an insertion-ordered dictionary:
overwrite in place when the key exists, append otherwise. -/
def dictInsert : List (Line × Line) → Line → Line → List (Line × Line)
  | [], k, v => [(k, v)]
  | (k', v') :: rest, k, v =>
      if k' = k then (k, v) :: rest else (k', v') :: dictInsert rest k v

/-- The mutable locals of fasta_importer's while loop. -/
structure FState where
  first_line : Bool
  file_startswith_GT : Bool
  header_read : Bool
  head : Line
  seq : Line
  dict : List (Line × Line)

/-- The locals as initialized before the while loop. -/
def initFState : FState :=
  { first_line := true, file_startswith_GT := false, header_read := false,
    head := [], seq := [], dict := [] }

/-- Shared tail of one loop iteration of fasta_importer, after the
header/sequence branch has produced the updated locals st1: the
corrupted-file check on the first line, the clearing of first_line, and
the end-of-input test on the stripped line, which seals head and seq into
the dictionary and breaks.  The boolean is the break flag. -/
def finishLine (st1 : FState) (line : Line) : Except FastaError (FState × Bool) :=
  if st1.first_line && !st1.file_startswith_GT then
    Except.error FastaError.malformedFasta
  else
    let st2 := { st1 with first_line := false }
    if line = [] then
      Except.ok ({ st2 with dict := dictInsert st2.dict st2.head st2.seq }, true)
    else Except.ok (st2, false)

/-- One iteration of fasta_importer's while loop on the line read (already
without its newline; readline at end of file yields the empty line): strip
the line, take the header branch or the sequence branch, then finishLine. -/
def stepLine (st : FState) (raw : Line) : Except FastaError (FState × Bool) :=
  let line := pyStrip raw
  if startswithGT line then
    finishLine
      { st with
        file_startswith_GT := if st.first_line then true else st.file_startswith_GT,
        dict := if st.first_line then st.dict else dictInsert st.dict st.head st.seq,
        head := line,
        header_read := true } line
  else
    finishLine
      { st with
        seq := if st.header_read then normalizeSeqLine line
               else st.seq ++ normalizeSeqLine line,
        header_read := false } line

/-- The while loop itself: lines are consumed one at a time; when the list
is exhausted, readline returns the empty string, which the loop then
processes (sealing the final record and breaking, or raising on an empty
first line). -/
def runLines : FState → List Line → Except FastaError (List (Line × Line))
  | st, [] =>
      match stepLine st [] with
      | Except.error e => Except.error e
      | Except.ok (st', _) => Except.ok st'.dict
  | st, l :: ls =>
      match stepLine st l with
      | Except.error e => Except.error e
      | Except.ok (st', stop) =>
          if stop then Except.ok st'.dict else runLines st' ls

/-- Whether all entries of a list of lengths are equal; the source tests
len(np.unique(seq_lengths)) > 1, which holds exactly when this is false
(np.unique of the empty list has length 0, and this is true on the empty
list, so the two tests also agree there). -/
def allEqualNat : List Nat → Bool
  | [] => true
  | x :: xs => xs.all (fun y => y == x)

/-- fasta_importer on the file content, given as the list of its lines:
the line pass, then the post-pass validation in source order (at least two
sequences, then equal lengths). -/
def fasta_importer (input : List Line) : Except FastaError (List (Line × Line)) :=
  match runLines initFState input with
  | Except.error e => Except.error e
  | Except.ok dict =>
      let seq_lengths := dict.map (fun kv => kv.2.length)
      if seq_lengths.length < 2 then Except.error FastaError.insufficientSequences
      else if ¬ allEqualNat seq_lengths then
        Except.error FastaError.unequalSequenceLength
      else Except.ok dict

/- ===== Parameter importer (parameter_importer) ===== -/

/-- Exceptions parameter_importer can raise while reading an override file:
the redundant-equals ValueError, the unknown-parameter ValueError, and
Python NameError from reading one of the locals equals_sign_index or value
before any line has bound it (the source only prints a message, instead of
raising, when a line has no equals sign or a non-numeric value, and then
falls through to code that reads these locals). -/
inductive ParamError where
  | tooManyEquals : ParamError
  | invalidParameterName : ParamError
  | nameError : ParamError
deriving DecidableEq, Repr

/-- The four parameter names accepted as keys of parameters_dict. -/
inductive ParamName where
  | match_score : ParamName
  | transition : ParamName
  | transversion : ParamName
  | gap_penalty : ParamName
deriving DecidableEq, Repr

/-- Membership test of param_read in parameters_dict.keys(). -/
def lookupParamName (s : Line) : Option ParamName :=
  if s = "match_score".toList then some ParamName.match_score
  else if s = "transition".toList then some ParamName.transition
  else if s = "transversion".toList then some ParamName.transversion
  else if s = "gap_penalty".toList then some ParamName.gap_penalty
  else none

/-- Dictionary update parameters_dict[param_read] = value. -/
def setParam (p : ScoringParams) (n : ParamName) (v : ℚ) : ScoringParams :=
  match n with
  | ParamName.match_score => { p with match_score := v }
  | ParamName.transition => { p with transition := v }
  | ParamName.transversion => { p with transversion := v }
  | ParamName.gap_penalty => { p with gap_penalty := v }

/-- Value of a string of decimal digits. -/
def natOfDigits (l : Line) : Nat :=
  l.foldl (fun n c => n * 10 + (c.toNat - '0'.toNat)) 0

/-- Finite-decimal part of the float() model: digits with an optional
single decimal point, at least one digit present. -/
def pyFloatCore (s : Line) : Option ℚ :=
  match s.findIdx? (fun c => c = '.') with
  | none =>
      if s ≠ [] ∧ s.all Char.isDigit then some ((natOfDigits s : ℚ)) else none
  | some i =>
      let ip := s.take i
      let fp := s.drop (i + 1)
      if (ip ≠ [] ∨ fp ≠ []) ∧ ip.all Char.isDigit ∧ fp.all Char.isDigit then
        some ((natOfDigits ip : ℚ) + (natOfDigits fp : ℚ) / ((10 : ℚ) ^ fp.length))
      else none

/-- Model of the Python builtin float() on an already stripped string, for
plain signed decimal literals (exponents, infinities, nan and underscore
separators are not needed by any input considered here): none models the
ValueError float() raises on an unparseable string. -/
def pyFloat (s : Line) : Option ℚ :=
  match s with
  | '-' :: rest => (pyFloatCore rest).map (fun q => -q)
  | '+' :: rest => pyFloatCore rest
  | _ => pyFloatCore s

/-- The locals of parameter_importer's while loop that persist across
iterations: the dictionary under construction, and the two possibly unbound
locals value and equals_sign_index (none models unbound). -/
structure PState where
  params : ScoringParams
  value : Option ℚ
  eqIdx : Option Nat

/-- One iteration of parameter_importer's while loop on one line of the
override file (the trailing newline never matters: every use of the line
strips it or searches for an equals sign).  Mirrors the source order: the
index('=') lookup whose failure only prints and leaves equals_sign_index
at its previous binding, the redundant-equals ValueError, the slice and
strip of param_read (NameError when equals_sign_index is unbound), the
unknown-name ValueError, the float conversion whose failure only prints
and leaves value at its previous binding, then the dictionary update
(NameError when value is unbound). -/
def processParamLine (st : PState) (line : Line) : Except ParamError PState :=
  let eqIdx := match line.findIdx? (fun c => c = '=') with
    | some i => some i
    | none => st.eqIdx
  if line.count '=' > 1 then Except.error ParamError.tooManyEquals
  else
    match eqIdx with
    | none => Except.error ParamError.nameError
    | some i =>
        let param_read := pyStrip (line.take i)
        match lookupParamName param_read with
        | none => Except.error ParamError.invalidParameterName
        | some name =>
            let value := match pyFloat (pyStrip (line.drop (i + 1))) with
              | some v => some v
              | none => st.value
            match value with
            | none => Except.error ParamError.nameError
            | some v =>
                Except.ok { params := setParam st.params name v,
                            value := value, eqIdx := eqIdx }

/-- The while loop of parameter_importer: every line of the file is
processed (readline returns the empty string only at end of file, so the
loop's emptiness test is exactly exhaustion of the line list). -/
def runParamLines : PState → List Line → Except ParamError PState
  | st, [] => Except.ok st
  | st, l :: ls =>
      match processParamLine st l with
      | Except.error e => Except.error e
      | Except.ok st' => runParamLines st' ls

/-- parameter_importer: defaults when no override path is passed, otherwise
the line loop over the override file's content (the .txt-extension and
existence checks concern the external file system and are outside this
embedding; the inner test of the global parameters_path coincides with the
path argument being present at the function's unique call site). -/
def parameter_importer (pathLines : Option (List Line)) : Except ParamError ScoringParams :=
  match pathLines with
  | none => Except.ok defaultParams
  | some lines =>
      match runParamLines { params := defaultParams, value := none, eqIdx := none } lines with
      | Except.error e => Except.error e
      | Except.ok st => Except.ok st.params

example : parameter_importer none = Except.ok defaultParams := by rfl

example : fasta_importer [] = Except.error FastaError.malformedFasta := by decide
example :
    fasta_importer [['>', 'a'], ['A', 'C', 'G', 'T'], ['>', 'b'], ['A', 'C', 'G', '-']] =
      Except.ok [(['>', 'a'], ['A', 'C', 'G', 'T']), (['>', 'b'], ['A', 'C', 'G', '-'])] := by
  decide
example :
    fasta_importer [['>', 'a'], ['A', 'C'], [], ['>', 'b'], ['A', 'C']] =
      Except.error FastaError.insufficientSequences := by decide
example :
    fasta_importer [['>', 'a'], ['A', 'C'], ['>', 'b'], ['A', 'C', 'G']] =
      Except.error FastaError.unequalSequenceLength := by decide
example :
    fasta_importer [[], ['>', 'a'], ['A', 'C'], ['>', 'b'], ['A', 'C']] =
      Except.error FastaError.malformedFasta := by decide

example : classify 'A' 'A' = ColClass.identity := by decide
example : classify 'G' '-' = ColClass.gapCol := by decide
example : classify 'A' 'G' = ColClass.transitionCol := by decide
example : classify 'A' 'C' = ColClass.transversionCol := by decide
example : classify '-' '-' = ColClass.matchedGap := by decide
example : classify 'N' '-' = ColClass.disregardN := by decide

example :
    scorePair defaultParams ['A', 'G', '-', '-'] ['A', '-', 'C', 'G'] =
      Except.ok { identity := 1, gaps := 3, disregarded := 0,
                  denominator := 4, score := -2 } := by
  simp [scorePair, scoreLoop, applyClass, classify, interCard, initCounts,
        defaultParams, List.zip]
  norm_num

/- ===== Helper lemmas ===== -/

/-- Swapping the two elements of the pair set leaves the intersection
cardinality unchanged. -/
lemma interCard_swap (a b : Char) (t : List Char) :
    interCard [b, a] t = interCard [a, b] t := by
  rcases eq_or_ne a b with rfl | h
  · rfl
  · have h1 : List.dedup [a, b] = [a, b] := by
      rw [List.dedup_cons_of_not_mem] <;> simp [h]
    have h2 : List.dedup [b, a] = [b, a] := by
      rw [List.dedup_cons_of_not_mem] <;> simp [Ne.symm h]
    unfold interCard
    rw [h1, h2]
    simp only [List.filter_cons, List.filter_nil]
    by_cases hat : a ∈ t <;> by_cases hbt : b ∈ t <;> simp [hat, hbt]

/-- The column classification depends only on the unordered pair of
symbols. -/
lemma classify_comm (a b : Char) : classify a b = classify b a := by
  rcases eq_or_ne a b with rfl | hab
  · rfl
  · unfold classify
    by_cases h1 : a = 'N' ∨ b = 'N'
    · rw [if_pos h1, if_pos (Or.symm h1)]
    · rw [if_neg h1, if_neg (fun h => h1 (Or.symm h))]
      rw [if_neg hab, if_neg (Ne.symm hab)]
      have hAG : interCard [b, a] ['A', 'G'] = interCard [a, b] ['A', 'G'] :=
        interCard_swap a b _
      have hCT : interCard [b, a] ['C', 'T'] = interCard [a, b] ['C', 'T'] :=
        interCard_swap a b _
      rw [hAG, hCT]
      by_cases h3 : interCard [a, b] ['A', 'G'] = 2 ∨ interCard [a, b] ['C', 'T'] = 2
      · rw [if_pos h3, if_pos h3]
      · rw [if_neg h3, if_neg h3]
        by_cases h4 : a = '-' ∨ b = '-'
        · rw [if_pos h4, if_pos (Or.symm h4)]
        · rw [if_neg h4, if_neg (fun h => h4 (Or.symm h))]

/-- The column loop is invariant under swapping every column pair. -/
lemma scoreLoop_swap (p : ScoringParams) (cols : List (Char × Char)) :
    ∀ st, scoreLoop p st (cols.map Prod.swap) = scoreLoop p st cols := by
  induction cols with
  | nil => intro st; rfl
  | cons c rest ih =>
      intro st
      cases c with
      | mk a b =>
          simp only [List.map_cons, scoreLoop, Prod.swap_prod_mk]
          rw [classify_comm b a]
          exact ih _

/-- Total of the three counters of a Counts record. -/
def countsTotal (c : Counts) : Nat := c.identity + c.gaps + c.disregarded

/-- Each column increments at most one of the three counters. -/
lemma applyClass_total (p : ScoringParams) (st : Counts) (k : ColClass) :
    countsTotal (applyClass p st k) ≤ countsTotal st + 1 := by
  cases k <;> simp [applyClass, countsTotal] <;> omega

/-- Over the whole column loop the counters grow by at most the number of
columns. -/
lemma scoreLoop_total (p : ScoringParams) (cols : List (Char × Char)) :
    ∀ st, countsTotal (scoreLoop p st cols) ≤ countsTotal st + cols.length := by
  induction cols with
  | nil => intro st; simp [scoreLoop]
  | cons c rest ih =>
      intro st
      cases c with
      | mk a b =>
          simp only [scoreLoop, List.length_cons]
          calc countsTotal (scoreLoop p (applyClass p st (classify a b)) rest)
              ≤ countsTotal (applyClass p st (classify a b)) + rest.length := ih _
            _ ≤ countsTotal st + 1 + rest.length := by
                have := applyClass_total p st (classify a b)
                omega
            _ = countsTotal st + (rest.length + 1) := by omega

/-- The first line the loop reads: the first line of the file, or the
empty string readline returns when the file has no lines at all. -/
def firstLineRead (input : List Line) : Line :=
  match input with
  | [] => []
  | l :: _ => l

/-- A successful loop iteration always clears first_line, and breaks
exactly when the stripped line was empty. -/
lemma finishLine_ok_char (st1 : FState) (line : Line) (st' : FState) (stop : Bool)
    (h : finishLine st1 line = Except.ok (st', stop)) :
    st'.first_line = false ∧ (stop = true ↔ line = []) := by
  unfold finishLine at h
  split at h
  · cases h
  · split at h
    · simp only [Except.ok.injEq, Prod.mk.injEq] at h
      obtain ⟨h1, h2⟩ := h
      subst h1
      refine ⟨rfl, ?_⟩
      simp_all
    · simp only [Except.ok.injEq, Prod.mk.injEq] at h
      obtain ⟨h1, h2⟩ := h
      subst h1
      refine ⟨rfl, ?_⟩
      simp_all

/-- Lifting of finishLine_ok_char to a whole iteration. -/
lemma stepLine_ok_char (st : FState) (raw : Line) (st' : FState) (stop : Bool)
    (h : stepLine st raw = Except.ok (st', stop)) :
    st'.first_line = false ∧ (stop = true ↔ pyStrip raw = []) := by
  simp only [stepLine] at h
  by_cases hgt : startswithGT (pyStrip raw) = true
  · rw [if_pos hgt] at h
    exact finishLine_ok_char _ _ _ _ h
  · rw [if_neg hgt] at h
    exact finishLine_ok_char _ _ _ _ h

/-- Once first_line is cleared the corrupted-file check can no longer
fire, so an iteration cannot raise. -/
lemma finishLine_no_error (st1 : FState) (line : Line) (h : st1.first_line = false) :
    ∃ st' stop, finishLine st1 line = Except.ok (st', stop) := by
  unfold finishLine
  rw [h]
  by_cases hl : line = [] <;> simp [hl]

/-- Lifting of finishLine_no_error to a whole iteration. -/
lemma stepLine_no_error (st : FState) (raw : Line) (h : st.first_line = false) :
    ∃ st' stop, stepLine st raw = Except.ok (st', stop) := by
  simp only [stepLine]
  by_cases hgt : startswithGT (pyStrip raw) = true
  · rw [if_pos hgt]
    exact finishLine_no_error _ _ h
  · rw [if_neg hgt]
    exact finishLine_no_error _ _ h

/-- After a first iteration that did not raise, the rest of the loop never
raises: every later iteration sees first_line = false. -/
lemma runLines_ok (ls : List Line) :
    ∀ st, st.first_line = false → ∃ d, runLines st ls = Except.ok d := by
  induction ls with
  | nil =>
      intro st h
      obtain ⟨st', stop, hs⟩ := stepLine_no_error st [] h
      exact ⟨st'.dict, by simp [runLines, hs]⟩
  | cons l ls ih =>
      intro st h
      obtain ⟨st', stop, hs⟩ := stepLine_no_error st l h
      have hf := (stepLine_ok_char st l st' stop hs).1
      cases stop with
      | true => exact ⟨st'.dict, by simp [runLines, hs]⟩
      | false =>
          obtain ⟨d, hd⟩ := ih st' hf
          exact ⟨d, by simp [runLines, hs, hd]⟩

/-- The loop's output does not depend on anything after the first line
whose stripped form is empty. -/
lemma runLines_blank_stop (b : Line) (hb : pyStrip b = []) (post : List Line) :
    ∀ (pre : List Line) (st : FState), (∀ l ∈ pre, pyStrip l ≠ []) →
      runLines st (pre ++ b :: post) = runLines st (pre ++ [b]) := by
  intro pre
  induction pre with
  | nil =>
      intro st _
      simp only [List.nil_append]
      cases hstep : stepLine st b with
      | error e => simp [runLines, hstep]
      | ok p =>
          obtain ⟨st', stop⟩ := p
          have hc := stepLine_ok_char st b st' stop hstep
          have hstop : stop = true := hc.2.mpr hb
          subst hstop
          simp [runLines, hstep]
  | cons l pre ih =>
      intro st hpre
      have hl : pyStrip l ≠ [] := hpre l (List.mem_cons_self l pre)
      simp only [List.cons_append]
      cases hstep : stepLine st l with
      | error e => simp [runLines, hstep]
      | ok p =>
          obtain ⟨st', stop⟩ := p
          have hc := stepLine_ok_char st l st' stop hstep
          have hstop : stop = false := by
            cases stop with
            | false => rfl
            | true => exact absurd (hc.2.mp rfl) hl
          subst hstop
          simp only [runLines, hstep]
          exact ih st' (fun l' hl' => hpre l' (List.mem_cons_of_mem l hl'))

/-- Keys after a dict assignment: the assigned key, or a key already
present. -/
lemma dictInsert_keys (d : List (Line × Line)) (k v : Line) :
    ∀ kv ∈ dictInsert d k v, kv.1 = k ∨ kv.1 ∈ d.map Prod.fst := by
  induction d with
  | nil =>
      intro kv h
      simp [dictInsert] at h
      left
      rw [h]
  | cons p rest ih =>
      intro kv h
      obtain ⟨k', v'⟩ := p
      simp only [dictInsert] at h
      by_cases hk : k' = k
      · rw [if_pos hk] at h
        rcases List.mem_cons.mp h with h1 | h1
        · left
          rw [h1]
        · right
          rw [List.map_cons]
          exact List.mem_cons_of_mem _ (List.mem_map_of_mem Prod.fst h1)
      · rw [if_neg hk] at h
        rcases List.mem_cons.mp h with h1 | h1
        · right
          rw [h1, List.map_cons]
          exact List.mem_cons_self _ _
        · rcases ih kv h1 with h2 | h2
          · left
            exact h2
          · right
            rw [List.map_cons]
            exact List.mem_cons_of_mem _ h2

/-- Dictionary and head bookkeeping of one successful finishLine. -/
lemma finishLine_ok_struct (st1 : FState) (line : Line) (st' : FState) (stop : Bool)
    (h : finishLine st1 line = Except.ok (st', stop)) :
    st'.head = st1.head ∧
      (st'.dict = st1.dict ∨ (line = [] ∧ st'.dict = dictInsert st1.dict st1.head st1.seq)) := by
  unfold finishLine at h
  by_cases hc : (st1.first_line && !st1.file_startswith_GT) = true
  · rw [if_pos hc] at h
    cases h
  · rw [if_neg hc] at h
    by_cases hl : line = []
    · rw [if_pos hl] at h
      simp only [Except.ok.injEq, Prod.mk.injEq] at h
      obtain ⟨h1, _⟩ := h
      subst h1
      exact ⟨rfl, Or.inr ⟨hl, rfl⟩⟩
    · rw [if_neg hl] at h
      simp only [Except.ok.injEq, Prod.mk.injEq] at h
      obtain ⟨h1, _⟩ := h
      subst h1
      exact ⟨rfl, Or.inl rfl⟩

/-- Dictionary-key and head bookkeeping of one successful loop iteration:
every key of the new dictionary is an old key or the old head, and the
head is the stripped line when it was a header, resp. unchanged when it
was a sequence line. -/
lemma stepLine_ok_struct (st : FState) (raw : Line) (st' : FState) (stop : Bool)
    (h : stepLine st raw = Except.ok (st', stop)) :
    (∀ k, k ∈ st'.dict.map Prod.fst → k ∈ st.dict.map Prod.fst ∨ k = st.head) ∧
      (startswithGT (pyStrip raw) = true → st'.head = pyStrip raw) ∧
      (startswithGT (pyStrip raw) = false → st'.head = st.head) := by
  simp only [stepLine] at h
  by_cases hgt : startswithGT (pyStrip raw) = true
  · rw [if_pos hgt] at h
    obtain ⟨hh, hd⟩ := finishLine_ok_struct _ _ _ _ h
    refine ⟨?_, fun _ => hh, fun hf => absurd hgt (by simp [hf])⟩
    intro k hk
    rcases hd with hd | ⟨hline, _⟩
    · rw [hd] at hk
      by_cases hfl : st.first_line = true
      · simp only [hfl, if_true] at hk
        left
        exact hk
      · simp only [Bool.not_eq_true] at hfl
        simp only [hfl, Bool.false_eq_true, if_false] at hk
        rcases List.mem_map.mp hk with ⟨kv, hkv, hkeq⟩
        rcases dictInsert_keys st.dict st.head st.seq kv hkv with h1 | h1
        · right
          rw [← hkeq]
          exact h1
        · left
          rw [← hkeq]
          exact h1
    · exfalso
      rw [hline] at hgt
      simp [startswithGT] at hgt
  · rw [if_neg hgt] at h
    obtain ⟨hh, hd⟩ := finishLine_ok_struct _ _ _ _ h
    refine ⟨?_, fun hg => absurd hg hgt, fun _ => hh⟩
    intro k hk
    rcases hd with hd | ⟨_, hd⟩
    · rw [hd] at hk
      left
      exact hk
    · rw [hd] at hk
      rcases List.mem_map.mp hk with ⟨kv, hkv, hkeq⟩
      rcases dictInsert_keys st.dict st.head _ kv hkv with h1 | h1
      · right
        rw [← hkeq]
        exact h1
      · left
        rw [← hkeq]
        exact h1

/-- Every key of the loop's final dictionary is a key already present at
the start, the head at the start, or the stripped form of a header line
among the remaining input lines. -/
lemma runLines_keys (ls : List Line) :
    ∀ (st : FState) (dict : List (Line × Line)), runLines st ls = Except.ok dict →
      ∀ kv ∈ dict, kv.1 ∈ st.dict.map Prod.fst ∨ kv.1 = st.head ∨
        (startswithGT kv.1 = true ∧ ∃ l ∈ ls, kv.1 = pyStrip l) := by
  induction ls with
  | nil =>
      intro st dict h kv hkv
      unfold runLines at h
      cases hstep : stepLine st [] with
      | error e =>
          rw [hstep] at h
          cases h
      | ok p =>
          obtain ⟨st', stop⟩ := p
          rw [hstep] at h
          simp only [Except.ok.injEq] at h
          subst h
          obtain ⟨hkeys, _, _⟩ := stepLine_ok_struct st [] st' stop hstep
          rcases hkeys kv.1 (List.mem_map_of_mem Prod.fst hkv) with h1 | h1
          · left
            exact h1
          · right
            left
            exact h1
  | cons l ls ih =>
      intro st dict h kv hkv
      unfold runLines at h
      cases hstep : stepLine st l with
      | error e =>
          rw [hstep] at h
          cases h
      | ok p =>
          obtain ⟨st', stop⟩ := p
          rw [hstep] at h
          obtain ⟨hkeys, hhdr, hseq⟩ := stepLine_ok_struct st l st' stop hstep
          cases stop with
          | true =>
              simp only [if_true, Except.ok.injEq] at h
              subst h
              rcases hkeys kv.1 (List.mem_map_of_mem Prod.fst hkv) with h1 | h1
              · left
                exact h1
              · right
                left
                exact h1
          | false =>
              simp only [Bool.false_eq_true, if_false] at h
              rcases ih st' dict h kv hkv with h1 | h1 | ⟨hg, l', hl', he⟩
              · rcases hkeys kv.1 h1 with h2 | h2
                · left
                  exact h2
                · right
                  left
                  exact h2
              · cases hgt : startswithGT (pyStrip l) with
                | true =>
                    right
                    right
                    refine ⟨?_, l, List.mem_cons_self l ls, ?_⟩
                    · rw [h1, hhdr hgt]
                      exact hgt
                    · rw [h1]
                      exact hhdr hgt
                | false =>
                    right
                    left
                    rw [h1]
                    exact hseq hgt
              · right
                right
                exact ⟨hg, l', List.mem_cons_of_mem l hl', he⟩

/-- A successful fasta_importer run returns exactly the dictionary the
line loop produced. -/
lemma fasta_importer_ok (input : List Line) (store : List (Line × Line))
    (h : fasta_importer input = Except.ok store) :
    runLines initFState input = Except.ok store := by
  unfold fasta_importer at h
  cases hrun : runLines initFState input with
  | error e =>
      rw [hrun] at h
      cases h
  | ok dict =>
      rw [hrun] at h
      by_cases hlen : dict.length < 2
      · simp [hlen] at h
      · by_cases hall : allEqualNat (dict.map (fun kv => kv.2.length)) = true
        · simp [hlen, hall] at h
          rw [h]
        · simp [hlen, hall] at h

/-- The first loop iteration of a run that does not raise: the first line
must have been a header, and the resulting state is fully determined. -/
lemma stepLine_first (raw : Line) (st' : FState) (stop : Bool)
    (h : stepLine initFState raw = Except.ok (st', stop)) :
    startswithGT (pyStrip raw) = true ∧
      st' = { first_line := false, file_startswith_GT := true, header_read := true,
              head := pyStrip raw, seq := [], dict := [] } ∧
      stop = false := by
  simp only [stepLine] at h
  by_cases hgt : startswithGT (pyStrip raw) = true
  · rw [if_pos hgt] at h
    have hne : pyStrip raw ≠ [] := by
      intro he
      rw [he] at hgt
      simp [startswithGT] at hgt
    unfold finishLine at h
    rw [if_neg (by simp [initFState])] at h
    rw [if_neg hne] at h
    simp only [Except.ok.injEq, Prod.mk.injEq] at h
    obtain ⟨h1, h2⟩ := h
    exact ⟨hgt, by rw [← h1]; simp [initFState], h2.symm⟩
  · exfalso
    rw [if_neg hgt] at h
    simp [finishLine, initFState] at h

/- ===== Claim theorems ===== -/

/-- C1: over the alphabet {A, C, G, T, -, N}, the scoring loop classifies
every column by exactly the specified priority list (N-check, identity,
matched gap, transition by unordered-pair membership, unmatched gap,
transversion), with exactly one effect per column (the classification is a
total function into the six effect classes). -/
theorem claim_C1_classification_order (a b : Char)
    (ha : a ∈ validChars) (hb : b ∈ validChars) :
    classify a b = specClassify a b := by
  simp only [validChars, List.mem_cons, List.mem_singleton, List.not_mem_nil,
    or_false] at ha hb
  rcases ha with rfl | rfl | rfl | rfl | rfl | rfl <;>
    rcases hb with rfl | rfl | rfl | rfl | rfl | rfl <;> decide

/-- Witness for C1 at the concrete column (A, G). -/
theorem claim_C1_classification_order_witness :
    'A' ∈ validChars ∧ 'G' ∈ validChars ∧
      classify 'A' 'G' = specClassify 'A' 'G' :=
  ⟨by decide, by decide,
    claim_C1_classification_order 'A' 'G' (by decide) (by decide)⟩

/-- C2: scoring AG-- against A-CG under the default parameters gives
identity 1, gaps 3, disregarded 0, denominator 4 and score -2. -/
theorem claim_C2_scenario2 :
    defaultParams =
      { match_score := 1, transition := -1, transversion := -2, gap_penalty := -1 } ∧
    scorePair defaultParams ['A', 'G', '-', '-'] ['A', '-', 'C', 'G'] =
      Except.ok { identity := 1, gaps := 3, disregarded := 0,
                  denominator := 4, score := -2 } := by
  constructor
  · rfl
  · simp [scorePair, scoreLoop, applyClass, classify, interCard, initCounts,
      defaultParams, List.zip]
    norm_num

/-- C3: scoring is symmetric in the two sequences: for every parameter
record, scoring (A, B) and (B, A) produce identical results (score,
identity count, gap count and disregarded count alike), because every
classification rule depends only on the unordered symbol pair. -/
theorem claim_C3_symmetry (p : ScoringParams) (sa sb : Line) :
    scorePair p sa sb = scorePair p sb sa := by
  by_cases h : sa.length = sb.length
  · have hz : sb.zip sa = (sa.zip sb).map Prod.swap := (List.zip_swap sa sb).symm
    have hc : scoreLoop p initCounts (sb.zip sa) = scoreLoop p initCounts (sa.zip sb) := by
      rw [hz, scoreLoop_swap]
    unfold scorePair
    rw [hc, h]
  · unfold scorePair
    rw [if_pos h, if_pos (fun e => h e.symm)]

/-- C4: for equal-length sequences of length L, after the column loop the
counters satisfy identity + gaps + disregarded <= L (each column
increments at most one of the three counters). -/
theorem claim_C4_counter_bound (p : ScoringParams) (sa sb : Line) (L : Nat)
    (ha : sa.length = L) (hb : sb.length = L) :
    (scoreLoop p initCounts (sa.zip sb)).identity
      + (scoreLoop p initCounts (sa.zip sb)).gaps
      + (scoreLoop p initCounts (sa.zip sb)).disregarded ≤ L := by
  have h1 := scoreLoop_total p (sa.zip sb) initCounts
  have h2 : (sa.zip sb).length = min sa.length sb.length := List.length_zip sa sb
  rw [ha, hb, Nat.min_self] at h2
  simp only [countsTotal] at h1
  have h3 : initCounts.identity = 0 ∧ initCounts.gaps = 0 ∧ initCounts.disregarded = 0 :=
    ⟨rfl, rfl, rfl⟩
  omega

/-- Witness for C4 at the concrete pair (AC, AG) of length 2. -/
theorem claim_C4_counter_bound_witness :
    (['A', 'C'] : Line).length = 2 ∧ (['A', 'G'] : Line).length = 2 ∧
      (scoreLoop defaultParams initCounts ((['A', 'C'] : Line).zip ['A', 'G'])).identity
        + (scoreLoop defaultParams initCounts ((['A', 'C'] : Line).zip ['A', 'G'])).gaps
        + (scoreLoop defaultParams initCounts ((['A', 'C'] : Line).zip ['A', 'G'])).disregarded ≤ 2 :=
  ⟨rfl, rfl, claim_C4_counter_bound defaultParams _ _ 2 rfl rfl⟩

/-- C7 counterexample: an input whose first line is blank and whose first
non-empty line is the header of a well-formed two-record file still raises
MalformedFasta, because the corrupted-file check looks at the very first
line read, not at the first non-empty line. -/
theorem claim_C7_counterexample :
    pyStrip ([] : Line) = [] ∧
    startswithGT (pyStrip ['>', 'a']) = true ∧
    fasta_importer [[], ['>', 'a'], ['A', 'C'], ['>', 'b'], ['A', 'C']] =
      Except.error FastaError.malformedFasta := by
  refine ⟨rfl, rfl, ?_⟩
  decide

/-- C7 amended: fasta_importer raises MalformedFasta exactly when the very
first line read (the empty string when the input has no lines), after
whitespace trimming, does not begin with the character GT; a blank first
line therefore raises even when the first non-empty line is a header. -/
theorem claim_C7_amended_malformed_iff (input : List Line) :
    fasta_importer input = Except.error FastaError.malformedFasta ↔
      startswithGT (pyStrip (firstLineRead input)) = false := by
  cases input with
  | nil =>
      constructor
      · intro _
        decide
      · intro _
        decide
  | cons l ls =>
      simp only [firstLineRead]
      constructor
      · intro h
        by_cases hgt : startswithGT (pyStrip l) = true
        · exfalso
          have hne : pyStrip l ≠ [] := by
            intro he
            rw [he] at hgt
            simp [startswithGT] at hgt
          have hstep : stepLine initFState l =
              Except.ok ({ first_line := false, file_startswith_GT := true,
                           header_read := true, head := pyStrip l,
                           seq := [], dict := [] }, false) := by
            simp [stepLine, finishLine, initFState, hgt, hne]
          obtain ⟨d, hd⟩ := runLines_ok ls
            { first_line := false, file_startswith_GT := true,
              header_read := true, head := pyStrip l, seq := [], dict := [] } rfl
          have hnot : fasta_importer (l :: ls) ≠ Except.error FastaError.malformedFasta := by
            unfold fasta_importer
            rw [show runLines initFState (l :: ls) = Except.ok d by
              simp [runLines, hstep, hd]]
            by_cases hlen : d.length < 2
            · intro hcon
              simp [hlen] at hcon
            · by_cases hall : allEqualNat (d.map (fun kv => kv.2.length)) = true
              · intro hcon
                simp [hlen, hall] at hcon
              · intro hcon
                simp [hlen, hall] at hcon
          exact hnot h
        · simp at hgt
          exact hgt
      · intro h
        have hstep : stepLine initFState l = Except.error FastaError.malformedFasta := by
          simp [stepLine, finishLine, initFState, h]
        unfold fasta_importer
        simp [runLines, hstep]

/-- C9: the first line that is empty after trimming ends the parse: the
store and the outcome of fasta_importer are the same as if the input ended
right at that blank line, so no later line contributes to any record. -/
theorem claim_C9_blank_line_ends_input (pre post : List Line) (b : Line)
    (hpre : ∀ l ∈ pre, pyStrip l ≠ []) (hb : pyStrip b = []) :
    fasta_importer (pre ++ b :: post) = fasta_importer (pre ++ [b]) := by
  unfold fasta_importer
  rw [runLines_blank_stop b hb post pre initFState hpre]

/-- Witness for C9: a blank line after one complete record hides two later
lines that would have formed a second record. -/
theorem claim_C9_blank_line_ends_input_witness :
    (∀ l ∈ [['>', 'a'], ['A', 'C']], pyStrip l ≠ []) ∧
    pyStrip ([] : Line) = [] ∧
    fasta_importer ([['>', 'a'], ['A', 'C']] ++ [] :: [['>', 'b'], ['G', 'G']]) =
      fasta_importer ([['>', 'a'], ['A', 'C']] ++ [[]]) :=
  ⟨by decide, rfl,
    claim_C9_blank_line_ends_input [['>', 'a'], ['A', 'C']] [['>', 'b'], ['G', 'G']] []
      (by decide) rfl⟩

/-- C5 counterexample: on a header line containing internal whitespace,
GT s1 space d, the stored identifier is the entire trimmed header line;
the text after the whitespace does appear in it, and the first-token form
GT s1 is not the stored key. -/
theorem claim_C5_counterexample :
    fasta_importer
        [['>', 's', '1', ' ', 'd'], ['A', 'C'], ['>', 's', '2'], ['G', 'G']] =
      Except.ok [(['>', 's', '1', ' ', 'd'], ['A', 'C']), (['>', 's', '2'], ['G', 'G'])] ∧
      (['>', 's', '1', ' ', 'd'] : Line) ≠ ['>', 's', '1'] := by
  constructor
  · decide
  · decide

/-- C5 amended: every stored identifier is the whole header line as read
(whitespace-trimmed, leading GT included, with no splitting on internal
whitespace): it begins with GT and equals the trimmed form of one of the
input lines. -/
theorem claim_C5_amended_identifier_is_full_header (input : List Line)
    (store : List (Line × Line)) (h : fasta_importer input = Except.ok store) :
    ∀ kv ∈ store, startswithGT kv.1 = true ∧ ∃ l ∈ input, kv.1 = pyStrip l := by
  have hrun := fasta_importer_ok input store h
  cases input with
  | nil =>
      exfalso
      have hmal : runLines initFState ([] : List Line) =
          Except.error FastaError.malformedFasta := by decide
      rw [hmal] at hrun
      cases hrun
  | cons l ls =>
      unfold runLines at hrun
      cases hstep : stepLine initFState l with
      | error e =>
          rw [hstep] at hrun
          cases hrun
      | ok p =>
          obtain ⟨st', stop⟩ := p
          rw [hstep] at hrun
          obtain ⟨hgt, hst, hstop⟩ := stepLine_first l st' stop hstep
          subst hst
          subst hstop
          simp only [Bool.false_eq_true, if_false] at hrun
          intro kv hkv
          rcases runLines_keys ls _ store hrun kv hkv with h1 | h1 | ⟨hg, l', hl', he⟩
          · simp at h1
          · constructor
            · rw [h1]
              exact hgt
            · exact ⟨l, List.mem_cons_self l ls, h1⟩
          · exact ⟨hg, l', List.mem_cons_of_mem l hl', he⟩

/-- Witness for the amended C5 on a file whose first header carries text
after internal whitespace. -/
theorem claim_C5_amended_identifier_is_full_header_witness :
    fasta_importer [['>', 's', '1', ' ', 'd'], ['A', 'C'], ['>', 's', '2'], ['G', 'G']] =
      Except.ok [(['>', 's', '1', ' ', 'd'], ['A', 'C']), (['>', 's', '2'], ['G', 'G'])] ∧
    (∀ kv ∈ [(['>', 's', '1', ' ', 'd'], ['A', 'C']), (['>', 's', '2'], ['G', 'G'])],
      startswithGT kv.1 = true ∧
        ∃ l ∈ [['>', 's', '1', ' ', 'd'], ['A', 'C'], ['>', 's', '2'], ['G', 'G']],
          kv.1 = pyStrip l) :=
  ⟨by decide,
    claim_C5_amended_identifier_is_full_header
      [['>', 's', '1', ' ', 'd'], ['A', 'C'], ['>', 's', '2'], ['G', 'G']]
      [(['>', 's', '1', ' ', 'd'], ['A', 'C']), (['>', 's', '2'], ['G', 'G'])]
      (by decide)⟩

/-- C6: on an override file whose second line gives the valid parameter
name transition the non-numeric value abc, parameter_importer does not
raise: the float conversion failure only prints, the loop falls through to
the dictionary update with the stale local value 2 parsed on the previous
line, and a parameters record is returned (with transition silently set to
2 instead of the requested override). -/
theorem claim_C6_nonnumeric_value_returns_record :
    parameter_importer (some ["match_score = 2".toList, "transition = abc".toList]) =
      Except.ok { match_score := 2, transition := 2, transversion := -2, gap_penalty := -1 } := by
  simp [parameter_importer, runParamLines, processParamLine, pyFloat, pyFloatCore,
        pyStrip, lookupParamName, setParam, natOfDigits, defaultParams, isPySpace]

/-- Distinct values among a list of lengths refute the all-equal test. -/
lemma allEqualNat_false_of_two (l : List Nat) (x y : Nat) (hx : x ∈ l) (hy : y ∈ l)
    (hxy : x ≠ y) : allEqualNat l = false := by
  cases l with
  | nil => cases hx
  | cons a t =>
      simp only [allEqualNat]
      cases hall : t.all (fun z => z == a) with
      | false => rfl
      | true =>
          exfalso
          have hxa : x = a := by
            rcases List.mem_cons.mp hx with rfl | hx'
            · rfl
            · have := List.all_eq_true.mp hall x hx'
              simpa using this
          have hya : y = a := by
            rcases List.mem_cons.mp hy with rfl | hy'
            · rfl
            · have := List.all_eq_true.mp hall y hy'
              simpa using this
          exact hxy (hxa.trans hya.symm)

/-- C8: when the line pass succeeds with at least two records of unequal
sequence lengths, fasta_importer raises the unequal-length error (the
length check runs after the line pass and after the at-least-two-records
check, which the hypothesis of two records passes). -/
theorem claim_C8_unequal_lengths (input : List Line) (dict : List (Line × Line))
    (hrun : runLines initFState input = Except.ok dict)
    (hlen : 2 ≤ dict.length)
    (kv kv' : Line × Line) (hkv : kv ∈ dict) (hkv' : kv' ∈ dict)
    (hne : kv.2.length ≠ kv'.2.length) :
    fasta_importer input = Except.error FastaError.unequalSequenceLength := by
  unfold fasta_importer
  rw [hrun]
  have h2 : ¬ (dict.map (fun kv => kv.2.length)).length < 2 := by
    rw [List.length_map]
    omega
  have h3 : allEqualNat (dict.map (fun kv => kv.2.length)) = false :=
    allEqualNat_false_of_two _ _ _
      (List.mem_map_of_mem (fun kv => kv.2.length) hkv)
      (List.mem_map_of_mem (fun kv => kv.2.length) hkv') hne
  simp [h2, h3]
  omega

/-- A two-record input whose sequences have lengths 10 and 11. -/
def unequalInput : List Line :=
  [['>', 'a'], ['A', 'A', 'A', 'A', 'A', 'A', 'A', 'A', 'A', 'A'],
   ['>', 'b'], ['C', 'C', 'C', 'C', 'C', 'C', 'C', 'C', 'C', 'C', 'C']]

/-- The dictionary the line pass builds from unequalInput. -/
def unequalDict : List (Line × Line) :=
  [(['>', 'a'], ['A', 'A', 'A', 'A', 'A', 'A', 'A', 'A', 'A', 'A']),
   (['>', 'b'], ['C', 'C', 'C', 'C', 'C', 'C', 'C', 'C', 'C', 'C', 'C'])]

/-- Witness for C8: two records with sequences of lengths 10 and 11. -/
theorem claim_C8_unequal_lengths_witness :
    runLines initFState unequalInput = Except.ok unequalDict ∧
    fasta_importer unequalInput = Except.error FastaError.unequalSequenceLength :=
  ⟨by decide,
    claim_C8_unequal_lengths unequalInput unequalDict (by decide) (by decide)
      (['>', 'a'], ['A', 'A', 'A', 'A', 'A', 'A', 'A', 'A', 'A', 'A'])
      (['>', 'b'], ['C', 'C', 'C', 'C', 'C', 'C', 'C', 'C', 'C', 'C', 'C'])
      (by decide) (by decide) (by decide)⟩

/-- A column that only increments disregarded_positions: either symbol is
N, or both symbols are the matched gap. -/
def colDisregarded (a b : Char) : Prop :=
  classify a b = ColClass.disregardN ∨ classify a b = ColClass.matchedGap

instance (a b : Char) : Decidable (colDisregarded a b) := by
  unfold colDisregarded
  infer_instance

/-- When every column is disregarded the counter reaches the number of
columns. -/
lemma scoreLoop_all_disregarded (p : ScoringParams) (cols : List (Char × Char))
    (hall : ∀ c ∈ cols, colDisregarded c.1 c.2) :
    ∀ st, (scoreLoop p st cols).disregarded = st.disregarded + cols.length := by
  induction cols with
  | nil =>
      intro st
      simp [scoreLoop]
  | cons c rest ih =>
      intro st
      obtain ⟨a, b⟩ := c
      have hc := hall (a, b) (List.mem_cons_self _ _)
      simp only [scoreLoop, List.length_cons]
      rw [ih (fun c' hc' => hall c' (List.mem_cons_of_mem _ hc')) _]
      rcases hc with hc | hc <;> rw [hc] <;> simp [applyClass] <;> omega

/-- When every column of an equal-length pair is disregarded, scorePair
raises the division-by-zero error: the denominator is 0. -/
lemma scorePair_all_disregarded (p : ScoringParams) (sa sb : Line)
    (hlen : sa.length = sb.length)
    (hall : ∀ c ∈ sa.zip sb, colDisregarded c.1 c.2) :
    scorePair p sa sb = Except.error RunError.zeroDivision := by
  have hzl : (sa.zip sb).length = sa.length := by
    rw [List.length_zip sa sb, hlen, Nat.min_self]
  have hd : ((scoreLoop p initCounts (sa.zip sb)).disregarded : Int) = (sa.length : Int) := by
    rw [scoreLoop_all_disregarded p _ hall initCounts, hzl]
    simp [initCounts]
  simp only [scorePair]
  rw [if_neg (not_not_intro hlen), if_pos (by rw [hd]; omega)]

/-- For an equal-length pair the only exception scorePair can raise is
the division by zero. -/
lemma scorePair_eqlen_err (p : ScoringParams) (sa sb : Line) (e : RunError)
    (hlen : sa.length = sb.length)
    (h : scorePair p sa sb = Except.error e) : e = RunError.zeroDivision := by
  simp only [scorePair] at h
  rw [if_neg (not_not_intro hlen)] at h
  by_cases hz :
      (sa.length : Int) - ((scoreLoop p initCounts (sa.zip sb)).disregarded : Int) = 0
  · rw [if_pos hz] at h
    injection h with h1
    exact h1.symm
  · rw [if_neg hz] at h
    cases h

/-- Both members of an enumerated pair come from the store. -/
lemma pairsOf_mem {α : Type} (l : List α) :
    ∀ pr ∈ pairsOf l, pr.1 ∈ l ∧ pr.2 ∈ l := by
  induction l with
  | nil =>
      intro pr h
      cases h
  | cons x xs ih =>
      intro pr h
      simp only [pairsOf, List.mem_append] at h
      rcases h with h | h
      · rcases List.mem_map.mp h with ⟨y, hy, hyeq⟩
        rw [← hyeq]
        exact ⟨List.mem_cons_self _ _, List.mem_cons_of_mem _ hy⟩
      · obtain ⟨h1, h2⟩ := ih pr h
        exact ⟨List.mem_cons_of_mem _ h1, List.mem_cons_of_mem _ h2⟩

/-- If every enumerated pair has equal lengths and some pair raises the
division by zero, the whole run aborts with it. -/
lemma scoreAllGo_err (p : ScoringParams) (prs : List ((Line × Line) × (Line × Line)))
    (hok : ∀ pr ∈ prs, pr.1.2.length = pr.2.2.length)
    (hex : ∃ pr ∈ prs, scorePair p pr.1.2 pr.2.2 = Except.error RunError.zeroDivision) :
    scoreAllGo p prs = Except.error RunError.zeroDivision := by
  induction prs with
  | nil =>
      obtain ⟨pr, h, _⟩ := hex
      cases h
  | cons q rest ih =>
      cases hq : scorePair p q.1.2 q.2.2 with
      | error e =>
          have he : e = RunError.zeroDivision :=
            scorePair_eqlen_err p _ _ e (hok q (List.mem_cons_self _ _)) hq
          subst he
          simp only [scoreAllGo, hq]
          rfl
      | ok s =>
          have hex' : ∃ pr ∈ rest,
              scorePair p pr.1.2 pr.2.2 = Except.error RunError.zeroDivision := by
            obtain ⟨pr, hpr, herr⟩ := hex
            rcases List.mem_cons.mp hpr with rfl | hpr'
            · rw [hq] at herr
              cases herr
            · exact ⟨pr, hpr', herr⟩
          have hrest := ih (fun pr h => hok pr (List.mem_cons_of_mem _ h)) hex'
          simp only [scoreAllGo, hq, hrest]
          rfl

/-- C10: the percentage computation divides by alignment_length minus
disregarded_positions with no zero guard: whenever the store (with its
equal-length sequences) contains an enumerated pair whose every column is
disregarded, the scoring run aborts with the division-by-zero error and
produces no summaries at all. -/
theorem claim_C10_zero_division (p : ScoringParams) (store : List (Line × Line))
    (hlen : ∀ kv ∈ store, ∀ kv' ∈ store, kv.2.length = kv'.2.length)
    (hex : ∃ pr ∈ pairsOf store, ∀ c ∈ pr.1.2.zip pr.2.2, colDisregarded c.1 c.2) :
    score_all p store = Except.error RunError.zeroDivision := by
  unfold score_all
  apply scoreAllGo_err
  · intro pr hpr
    obtain ⟨h1, h2⟩ := pairsOf_mem store pr hpr
    exact hlen _ h1 _ h2
  · obtain ⟨pr, hpr, hall⟩ := hex
    refine ⟨pr, hpr, ?_⟩
    obtain ⟨h1, h2⟩ := pairsOf_mem store pr hpr
    exact scorePair_all_disregarded p _ _ (hlen _ h1 _ h2) hall

/-- Witness for C10: two records whose sequences are entirely N. -/
theorem claim_C10_zero_division_witness :
    (∀ kv ∈ [(['>', 'a'], ['N', 'N']), (['>', 'b'], ['N', 'N'])],
      ∀ kv' ∈ [(['>', 'a'], ['N', 'N']), (['>', 'b'], ['N', 'N'])],
        (kv : Line × Line).2.length = (kv' : Line × Line).2.length) ∧
    score_all defaultParams [(['>', 'a'], ['N', 'N']), (['>', 'b'], ['N', 'N'])] =
      Except.error RunError.zeroDivision :=
  ⟨by decide,
    claim_C10_zero_division defaultParams [(['>', 'a'], ['N', 'N']), (['>', 'b'], ['N', 'N'])]
      (by decide) (by decide)⟩

end FastaAligner
